import Mathlib

/-!
Verification development for the `website-scraper` repository
(`src/scrapers/website_scraper.py`, class `WebsiteScraper`).

URLs are modelled as `List Char` (wrapped in `String` where convenient).
The `urllib.parse` primitives used by the scraper (`urlparse`, `geturl`,
`urljoin`, `unquote`) are shallowly embedded below, following the CPython
3.11.6 implementation: `urlsplit` (with its WHATWG control-character
lstrip and tab/CR/LF removal), `_splitparams` and the `uses_params`
guard of `urlparse`, `urlunparse`/`urlunsplit` (which re-join `;params`
only when nonempty — the source of `clean_url`'s trailing-`;` drop), and
`urljoin`. Two documented deviations remain:
* the `ValueError` raised for unbalanced `[`/`]` in a netloc is not
  modelled (the scraper never catches it, and no claim concerns it);
* character case-mapping is ASCII (the URLs the claims quantify over are
  ASCII; Python's `str.lower` agrees with ASCII lowering there), and
  percent-decoding decodes each `%XX` escape to one character (the ASCII
  fragment of CPython's UTF-8 `unquote`).
-/

/-- ASCII letters, as `url[0].isascii() and url[0].isalpha()` tests in
CPython's `urlsplit`. -/
def asciiLetters : List Char :=
  "ABCDEFGHIJKLMNOPQRSTUVWXYZabcdefghijklmnopqrstuvwxyz".data

def isLetter (c : Char) : Bool := asciiLetters.contains c

/-- CPython `scheme_chars = ascii_letters + digits + '+-.'`. -/
def schemeChars : List Char :=
  "ABCDEFGHIJKLMNOPQRSTUVWXYZabcdefghijklmnopqrstuvwxyz0123456789+-.".data

def isSchemeChar (c : Char) : Bool := schemeChars.contains c

/-- Pairing of the ASCII uppercase letters with their lowercase forms. -/
def upperLowerPairs : List (Char × Char) :=
  "ABCDEFGHIJKLMNOPQRSTUVWXYZ".data.zip "abcdefghijklmnopqrstuvwxyz".data

/-- ASCII lowering, the fragment of Python's `str.lower` the scraper meets. -/
def lowerChar (c : Char) : Char := (upperLowerPairs.lookup c).getD c

def lowerL (l : List Char) : List Char := l.map lowerChar

/-- Python `s.rstrip('/')`: drop every trailing `'/'`. -/
def rstripSlash : List Char → List Char
  | [] => []
  | c :: rest =>
    match rstripSlash rest with
    | [] => if c == '/' then [] else [c]
    | d :: ds => c :: d :: ds

/-- Python `s.lstrip('/')`: drop every leading `'/'`. -/
def lstripSlash (l : List Char) : List Char := l.dropWhile (fun c => c == '/')

/-- Python `s.strip('/')`: drop slashes from both ends. -/
def stripSlash (l : List Char) : List Char := rstripSlash (lstripSlash l)

/-- Boolean test that `pre` is an initial run of `l`. -/
def startsWithCh : List Char → List Char → Bool
  | [], _ => true
  | _ :: _, [] => false
  | a :: as, b :: bs => a == b && startsWithCh as bs

/-- Python `needle in haystack` on strings (substring containment). -/
def hasSubstr (needle : List Char) : List Char → Bool
  | [] => startsWithCh needle []
  | c :: rest => startsWithCh needle (c :: rest) || hasSubstr needle rest

/-- Hex digit value, as `urllib.parse` uses to decode `%XX` escapes. -/
def hexVal (c : Char) : Option Nat :=
  if '0' ≤ c ∧ c ≤ '9' then some (c.toNat - '0'.toNat)
  else if 'a' ≤ c ∧ c ≤ 'f' then some (c.toNat - 'a'.toNat + 10)
  else if 'A' ≤ c ∧ c ≤ 'F' then some (c.toNat - 'A'.toNat + 10)
  else none

/-- Model of `urllib.parse.unquote` at the character level: each valid
`%XX` escape decodes to the character with code `XX`; an invalid escape
keeps the `%` literally, exactly as CPython does. -/
def unquoteCore : List Char → List Char
  | '%' :: a :: b :: rest =>
    match hexVal a, hexVal b with
    | some x, some y => Char.ofNat (16 * x + y) :: unquoteCore rest
    | _, _ => '%' :: unquoteCore (a :: b :: rest)
  | c :: rest => c :: unquoteCore rest
  | [] => []

/-- Result of `urllib.parse.urlsplit` (with `params` folded into `path`,
see the module comment). -/
structure UrlParts where
  scheme : List Char
  netloc : List Char
  path : List Char
  query : List Char
  fragment : List Char
deriving DecidableEq

/-- CPython `_WHATWG_C0_CONTROL_OR_SPACE`: the C0 control characters
together with the space. -/
def isC0ControlOrSpace (c : Char) : Bool := c.toNat ≤ 32

/-- CPython `_UNSAFE_URL_BYTES_TO_REMOVE`: tab, CR and LF. -/
def isUnsafeUrlByte (c : Char) : Bool := c == '\t' || c == '\r' || c == '\n'

/-- The preprocessing CPython 3.11.6 `urlsplit` applies before parsing:
`url.lstrip(_WHATWG_C0_CONTROL_OR_SPACE)` followed by removing every
tab, CR and LF. -/
def preprocessUrl (l : List Char) : List Char :=
  (l.dropWhile isC0ControlOrSpace).filter (fun c => !isUnsafeUrlByte c)

/-- Scheme splitting as in CPython 3.11 `urlsplit`: a scheme is present
when the text before the first `:` is nonempty, starts with an ASCII
letter and consists of scheme characters; it is returned lower-cased. -/
def splitScheme (l : List Char) : List Char × List Char :=
  match l.dropWhile (fun c => c != ':') with
  | [] => ([], l)
  | _ :: rest =>
    match l.takeWhile (fun c => c != ':') with
    | [] => ([], l)
    | c0 :: _ =>
      if isLetter c0 && (l.takeWhile (fun c => c != ':')).all isSchemeChar
      then ((l.takeWhile (fun c => c != ':')).map lowerChar, rest)
      else ([], l)

def netlocDelim (c : Char) : Bool := c == '/' || c == '?' || c == '#'

/-- Netloc splitting as in `urlsplit`: after a leading `//`, the netloc
runs until the first `/`, `?` or `#`. -/
def splitNetloc : List Char → List Char × List Char
  | '/' :: '/' :: rest =>
    (rest.takeWhile (fun c => !netlocDelim c), rest.dropWhile (fun c => !netlocDelim c))
  | l => ([], l)

/-- Python `url.split('#', 1)` guarded by `'#' in url`: text before the
first `#`, and the fragment after it (empty when there is no `#`). -/
def splitFragment (l : List Char) : List Char × List Char :=
  (l.takeWhile (fun c => c != '#'), (l.dropWhile (fun c => c != '#')).drop 1)

/-- Python `url.split('?', 1)` guarded by `'?' in url`. -/
def splitQuery (l : List Char) : List Char × List Char :=
  (l.takeWhile (fun c => c != '?'), (l.dropWhile (fun c => c != '?')).drop 1)

/-- Model of `urllib.parse.urlsplit` (CPython 3.11.6): preprocess, then
split off scheme, netloc, fragment and query, in that order. -/
def urlsplitCore (l : List Char) : UrlParts :=
  let (scheme, r1) := splitScheme (preprocessUrl l)
  let (netloc, r2) := splitNetloc r1
  let (r3, fragment) := splitFragment r2
  let (path, query) := splitQuery r3
  ⟨scheme, netloc, path, query, fragment⟩

/-- CPython `uses_relative` scheme list. -/
def usesRelative : List (List Char) :=
  [[], "ftp".data, "http".data, "gopher".data, "nntp".data, "imap".data,
   "wais".data, "file".data, "https".data, "mms".data, "prospero".data,
   "sftp".data, "svn".data, "svn+ssh".data, "ws".data, "wss".data]

/-- CPython `uses_netloc` scheme list. -/
def usesNetloc : List (List Char) :=
  [[], "ftp".data, "http".data, "gopher".data, "nntp".data, "telnet".data,
   "imap".data, "wais".data, "file".data, "mms".data, "https".data,
   "shttp".data, "snews".data, "prospero".data, "rtsp".data, "rtspu".data,
   "rsync".data, "svn".data, "svn+ssh".data, "sftp".data, "nfs".data,
   "git".data, "git+ssh".data, "ws".data, "wss".data, "itms-services".data]

/-- Model of `urllib.parse.urlunsplit` / `ParseResult.geturl`, as in
CPython 3.11.6: the `//` marker is emitted when the netloc is nonempty,
or when a nonempty scheme from `uses_netloc` is present and the path does
not already begin with `//`. -/
def urlunsplitCore (p : UrlParts) : List Char :=
  let u1 :=
    if p.netloc != ([] : List Char) ||
       (p.scheme != ([] : List Char) && usesNetloc.contains p.scheme &&
        !startsWithCh ['/', '/'] p.path) then
      '/' :: '/' :: (p.netloc ++
        (if p.path != ([] : List Char) && !startsWithCh ['/'] p.path
         then '/' :: p.path else p.path))
    else p.path
  let u2 := if p.scheme != ([] : List Char) then p.scheme ++ ':' :: u1 else u1
  let u3 := if p.query != ([] : List Char) then u2 ++ '?' :: p.query else u2
  if p.fragment != ([] : List Char) then u3 ++ '#' :: p.fragment else u3

/-- CPython `uses_params` scheme list. -/
def usesParams : List (List Char) :=
  [[], "ftp".data, "hdl".data, "prospero".data, "http".data, "imap".data,
   "https".data, "shttp".data, "rtsp".data, "rtsps".data, "rtspu".data,
   "sip".data, "sips".data, "mms".data, "sftp".data, "tel".data]

/-- CPython `_splitparams`: split the `;params` component off the last
`/`-segment of a path (off the whole path when it has no `/`). The
no-`/` branch assumes a `;` is present, exactly as `urlparse`'s guard
guarantees at the call site. -/
def splitParams (p : List Char) : List Char × List Char :=
  if p.contains '/' then
    let lastSeg := (p.reverse.takeWhile (fun c => c != '/')).reverse
    let pre := (p.reverse.dropWhile (fun c => c != '/')).reverse
    if lastSeg.contains ';' then
      (pre ++ lastSeg.takeWhile (fun c => c != ';'),
       (lastSeg.dropWhile (fun c => c != ';')).drop 1)
    else (p, [])
  else
    (p.takeWhile (fun c => c != ';'), (p.dropWhile (fun c => c != ';')).drop 1)

/-- Result of `urllib.parse.urlparse`: the six components. -/
structure ParseResult6 where
  scheme : List Char
  netloc : List Char
  path : List Char
  params : List Char
  query : List Char
  fragment : List Char
deriving DecidableEq

/-- Model of `urllib.parse.urlparse`: `urlsplit`, then split `;params`
off the path when the scheme is in `uses_params` and the path contains
a `;`. -/
def urlparseCore (l : List Char) : ParseResult6 :=
  if usesParams.contains (urlsplitCore l).scheme &&
      (urlsplitCore l).path.contains ';' then
    ⟨(urlsplitCore l).scheme, (urlsplitCore l).netloc,
     (splitParams (urlsplitCore l).path).1, (splitParams (urlsplitCore l).path).2,
     (urlsplitCore l).query, (urlsplitCore l).fragment⟩
  else
    ⟨(urlsplitCore l).scheme, (urlsplitCore l).netloc, (urlsplitCore l).path, [],
     (urlsplitCore l).query, (urlsplitCore l).fragment⟩

/-- Model of `urllib.parse.urlunparse` / `ParseResult.geturl`: re-join
`path;params` only when `params` is nonempty (an empty `params` silently
drops a trailing `;`), then `urlunsplit`. -/
def urlunparseCore (p : ParseResult6) : List Char :=
  urlunsplitCore ⟨p.scheme, p.netloc,
    (if p.params != ([] : List Char) then p.path ++ ';' :: p.params else p.path),
    p.query, p.fragment⟩

/-- `WebsiteScraper.clean_url`: parse, blank out query and fragment,
re-serialize, then `rstrip('/')`. -/
def cleanUrlCore (l : List Char) : List Char :=
  rstripSlash (urlunparseCore { urlparseCore l with query := [], fragment := [] })

def clean_url (url : String) : String := String.mk (cleanUrlCore url.data)

/-- `WebsiteScraper.is_valid_url`: an empty URL is invalid, otherwise the
netloc must equal the netloc of the (already `rstrip('/')`-ed) base URL. -/
def is_valid_url (base_url url : String) : Bool :=
  if url == "" then false
  else (urlparseCore base_url.data).netloc == (urlparseCore url.data).netloc

/-- Python `s.split('/')`. -/
def splitOnSlash (l : List Char) : List (List Char) :=
  let step := fun (c : Char) (acc : List (List Char)) =>
    match acc with
    | [] => if c == '/' then [[], []] else [[c]]
    | seg :: rest => if c == '/' then [] :: seg :: rest else (c :: seg) :: rest
  l.foldr step [[]]

/-- Python `'/'.join(segs)`. -/
def joinSlash (segs : List (List Char)) : List Char :=
  match segs with
  | [] => []
  | s :: rest => s ++ rest.foldl (fun acc seg => acc ++ '/' :: seg) []

/-- Python `segments[1:-1] = filter(None, segments[1:-1])`: drop the empty
segments strictly between the first and the last one. -/
def filterInterior (segs : List (List Char)) : List (List Char) :=
  match segs with
  | [] => []
  | [s] => [s]
  | s :: rest =>
    s :: (rest.dropLast.filter (fun x => x != ([] : List Char))
          ++ rest.drop (rest.length - 1))

/-- Dot-segment resolution loop of CPython 3.11 `urljoin`: `..` pops,
`.` is skipped, and a trailing `.`/`..` leaves a trailing empty segment. -/
def resolveSegments (segments : List (List Char)) : List Char :=
  let resolved := segments.foldl
    (fun acc seg =>
      if seg == "..".data then acc.dropLast
      else if seg == ".".data then acc
      else acc ++ [seg]) []
  let resolved :=
    if segments.getLast? == some "..".data || segments.getLast? == some ".".data
    then resolved ++ [[]] else resolved
  joinSlash resolved

/-- Model of `urllib.parse.urljoin` (CPython 3.11.6): both URLs go
through `urlparse` (the relative URL inherits the base's scheme as the
default, which also governs its `;params` split), and the result is
re-assembled with `urlunparse`. -/
def urljoinCore (base url : List Char) : List Char :=
  if base == ([] : List Char) then url
  else if url == ([] : List Char) then base
  else
    let b := urlparseCore base
    let us := urlsplitCore url
    let uscheme := if us.scheme == ([] : List Char) then b.scheme else us.scheme
    let (upath, uparams) :=
      if usesParams.contains uscheme && us.path.contains ';'
      then splitParams us.path else (us.path, [])
    if uscheme != b.scheme || !(usesRelative.contains uscheme) then url
    else if usesNetloc.contains uscheme && us.netloc != ([] : List Char) then
      urlunparseCore { scheme := uscheme, netloc := us.netloc, path := upath,
                       params := uparams, query := us.query, fragment := us.fragment }
    else
      let unetloc := if usesNetloc.contains uscheme then b.netloc else us.netloc
      if upath == ([] : List Char) && uparams == ([] : List Char) then
        urlunparseCore { scheme := uscheme, netloc := unetloc, path := b.path,
                         params := b.params,
                         query := (if us.query == ([] : List Char) then b.query else us.query),
                         fragment := us.fragment }
      else
        let baseParts := splitOnSlash b.path
        let baseParts :=
          if baseParts.getLast? != some ([] : List Char) then baseParts.dropLast
          else baseParts
        let segments :=
          if startsWithCh ['/'] upath then splitOnSlash upath
          else filterInterior (baseParts ++ splitOnSlash upath)
        let joined := resolveSegments segments
        urlunparseCore { scheme := uscheme, netloc := unetloc,
                         path := (if joined == ([] : List Char) then ['/'] else joined),
                         params := uparams, query := us.query, fragment := us.fragment }

def urljoin (base url : String) : String := String.mk (urljoinCore base.data url.data)

/-- The queries `WebsiteScraper` makes against a parsed page
(`BeautifulSoup` is an external collaborator; a document is modelled by
the answers it gives to exactly the queries the scraper performs). An
anchor's `href`/`title` model `tag.get(...)`: `none` when the attribute
is missing. JSON-LD blocks are modelled by their parse result: `none`
for a block `json.loads` rejects. -/
structure Anchor where
  href : Option String
  text : String
  title : Option String
deriving DecidableEq

structure Doc where
  divProductClass : Bool
  divWoocommerceProductGallery : Bool
  ulProductsClass : Bool
  divWoocommerceProductsHeader : Bool
  title : Option String
  metaDescription : Option String
  metaKeywords : Option String
  h1Headings : List String
  h2Headings : List String
  h3Headings : List String
  priceText : Option String
  skuText : Option String
  stockText : Option String
  postedInTexts : List String
  taggedAsTexts : List String
  ldJsonBlocks : List (Option String)
  anchors : List Anchor
deriving DecidableEq

/-- `WebsiteScraper.get_page_type`: product markers first, then
category/shop markers, else `content`. -/
def get_page_type (url : String) (soup : Doc) : String :=
  let url_path := lowerL (urlparseCore url.data).path
  if hasSubstr "product".data url_path ||
     soup.divProductClass || soup.divWoocommerceProductGallery then "product"
  else if hasSubstr "category".data url_path || hasSubstr "shop".data url_path ||
          soup.ulProductsClass || soup.divWoocommerceProductsHeader then "category"
  else "content"

/-- Characters `re.sub` replaces in `get_page_path` and `download_image`. -/
def fsReserved : List Char := ['<', '>', ':', '"', '/', '\\', '|', '?', '*']

def sanitizeChar (c : Char) : Char := if fsReserved.contains c then '-' else c

/-- `WebsiteScraper.get_page_path`: take the parsed path, `strip('/')`
both ends, `home` when the result is empty, else percent-decode, replace
the reserved characters by `-` and lower-case. -/
def getPagePathCore (l : List Char) : List Char :=
  let path := stripSlash (urlparseCore l).path
  if path == ([] : List Char) then "home".data
  else lowerL ((unquoteCore path).map sanitizeChar)

def get_page_path (url : String) : String := String.mk (getPagePathCore url.data)

/-- Product metadata block built for product pages
(`extract_metadata`, lines 174-186). -/
structure ProductInfo where
  price : Option String
  sku : Option String
  stock_status : Option String
  categories : List String
  tags : List String
deriving DecidableEq

/-- `WebsiteScraper.extract_metadata` result. -/
structure Metadata where
  title : Option String
  meta_description : Option String
  meta_keywords : Option String
  h1_headings : List String
  h2_headings : List String
  h3_headings : List String
  product_info : Option ProductInfo
deriving DecidableEq

def extract_metadata (soup : Doc) (url : String) : Metadata :=
  { title := soup.title
    meta_description := soup.metaDescription
    meta_keywords := soup.metaKeywords
    h1_headings := soup.h1Headings
    h2_headings := soup.h2Headings
    h3_headings := soup.h3Headings
    product_info :=
      if get_page_type url soup == "product" then
        some { price := soup.priceText, sku := soup.skuText,
               stock_status := soup.stockText,
               categories := soup.postedInTexts, tags := soup.taggedAsTexts }
      else none }

/-- `WebsiteScraper.extract_structured_data`: keep the JSON-LD blocks
that parse; `none` when none do. -/
def extract_structured_data (soup : Doc) : Option (List String) :=
  let structured_data := soup.ldJsonBlocks.filterMap id
  if structured_data == ([] : List String) then none else some structured_data

/-- One entry of `page_data['links']`. -/
structure LinkData where
  url : String
  text : String
  title : String
deriving DecidableEq

/-- The `page_data` dictionary assembled by `scrape_page` (the
`local_text_file` path and the downloaded images are artifacts handed to
the persistence sink; the image list is not part of the crawl state). -/
structure PageData where
  url : String
  original_url : String
  path : String
  type : String
  metadata : Metadata
  structured_data : Option (List String)
  links : List LinkData
deriving DecidableEq

/-- One node of `self.page_hierarchy`. -/
structure HNode where
  path : String
  title : Option String
  type : String
  children : List String
deriving DecidableEq

/-- The mutable fields of `WebsiteScraper` that the crawl reads or
writes. `page_hierarchy` is an insertion-ordered association list, the
model of a Python `dict`. -/
structure ScraperState where
  base_url : String
  visited_urls : Finset String
  page_hierarchy : List (String × HNode)
  product_pages : Finset String
  category_pages : Finset String
  content_pages : Finset String
deriving DecidableEq

/-- `WebsiteScraper.__init__`: the base URL is `rstrip('/')`-ed, all the
crawl state starts empty. -/
def initState (base_url : String) : ScraperState :=
  { base_url := String.mk (rstripSlash base_url.data)
    visited_urls := ∅
    page_hierarchy := []
    product_pages := ∅
    category_pages := ∅
    content_pages := ∅ }

/-- Python `dict` assignment `d[k] = v`: overwrite in place, else append. -/
def hset (h : List (String × HNode)) (k : String) (v : HNode) :
    List (String × HNode) :=
  if h.any (fun e => e.fst == k) then
    h.map (fun e => if e.fst == k then (k, v) else e)
  else h ++ [(k, v)]

/-- `self.page_hierarchy[k]['children'].append(c)` (the loop only reaches
this with `k` present; on a missing key the model is a no-op where Python
would raise `KeyError`). -/
def haddChild (h : List (String × HNode)) (k c : String) :
    List (String × HNode) :=
  h.map (fun e =>
    if e.fst == k then (e.fst, { e.snd with children := e.snd.children ++ [c] })
    else e)

def hkeys (h : List (String × HNode)) : List String := h.map Prod.fst

/-- What one page fetch returns: a status code and a parsed document, or
a raised exception (`requests` transport errors, and any other exception
the `try` block of `scrape_page` can swallow). -/
inductive FetchOutcome where
  | success (status : Nat) (doc : Doc)
  | failure
deriving DecidableEq

/-- `WebsiteScraper.scrape_page`, as a function of the network (`fetch`)
and the current crawler state; returns the `(links, page_data)` pair and
the successor state. Directory creation, the text artifact, the image
downloads and the `page_info.json` write are calls into the persistence
sink (external collaborator) and have no effect on the crawl state. -/
def scrape_page (fetch : String → FetchOutcome) (s : ScraperState)
    (url : String) : (List String × Option PageData) × ScraperState :=
  let cu := clean_url url
  if cu ∈ s.visited_urls || !is_valid_url s.base_url cu then (([], none), s)
  else
    let s1 := { s with visited_urls := insert cu s.visited_urls }
    match fetch url with
    | FetchOutcome.failure => (([], none), s1)
    | FetchOutcome.success status soup =>
      if status ≠ 200 then (([], none), s1)
      else
        let page_type := get_page_type cu soup
        let metadata := extract_metadata soup cu
        let structured_data := extract_structured_data soup
        let links := soup.anchors.filterMap (fun a =>
          match a.href with
          | none => none
          | some href =>
            if href == "" then none
            else
              let absolute_url := urljoin url href
              if is_valid_url s1.base_url absolute_url
              then some (clean_url absolute_url) else none)
        let link_data := soup.anchors.filterMap (fun a =>
          match a.href with
          | none => none
          | some href =>
            if href == "" then none
            else
              let absolute_url := urljoin url href
              if is_valid_url s1.base_url absolute_url
              then some { url := clean_url absolute_url, text := a.text,
                          title := a.title.getD "" }
              else none)
        let page_data : PageData :=
          { url := cu, original_url := url, path := get_page_path cu
            type := page_type, metadata := metadata
            structured_data := structured_data, links := link_data }
        let s2 := { s1 with
          page_hierarchy := hset s1.page_hierarchy cu
            { path := get_page_path cu, title := metadata.title
              type := page_type, children := [] } }
        let s3 :=
          if page_type == "product" then
            { s2 with product_pages := insert cu s2.product_pages }
          else if page_type == "category" then
            { s2 with category_pages := insert cu s2.category_pages }
          else
            { s2 with content_pages := insert cu s2.content_pages }
        ((links, some page_data), s3)

/-- The loop state of `WebsiteScraper.scrape_website`: the scraper's
fields, the `to_visit` frontier and the `pages_scraped` counter. -/
structure CrawlState where
  scraper : ScraperState
  to_visit : List String
  pages_scraped : Nat
deriving DecidableEq

/-- `scrape_website` entry: `to_visit = [self.base_url]`,
`pages_scraped = 0`. -/
def initCrawl (s : ScraperState) : CrawlState :=
  { scraper := s, to_visit := [s.base_url], pages_scraped := 0 }

/-- The `while` condition of `scrape_website`:
`to_visit and (max_pages is None or pages_scraped < max_pages)`. -/
def crawlGuard (max_pages : Option Nat) (c : CrawlState) : Bool :=
  !c.to_visit.isEmpty &&
    (match max_pages with
     | none => true
     | some n => c.pages_scraped < n)

/-- One iteration of the `scrape_website` loop: pop the frontier head,
scrape it, append the discovered hierarchy edges, enqueue the unvisited
discoveries, bump the counter (the `tqdm` bar and the `time.sleep(1)`
delay have no effect on the state). -/
def crawlStep (fetch : String → FetchOutcome) (c : CrawlState) : CrawlState :=
  match c.to_visit with
  | [] => c
  | current_url :: rest =>
    let ((new_links, page_data), s1) := scrape_page fetch c.scraper current_url
    let s2 :=
      match page_data with
      | none => s1
      | some pd =>
        let current_clean := clean_url current_url
        pd.links.foldl (fun st ld =>
          let link_clean := clean_url ld.url
          if (hkeys st.page_hierarchy).contains link_clean then
            { st with page_hierarchy :=
                haddChild st.page_hierarchy current_clean link_clean }
          else st) s1
    let frontier := rest ++ new_links.filter
      (fun link => !(clean_url link ∈ s2.visited_urls))
    { scraper := s2, to_visit := frontier, pages_scraped := c.pages_scraped + 1 }

/-- States the `scrape_website` loop reaches from `a`: the reflexive
closure of guarded loop iterations. `save_site_hierarchy`, run after the
loop, only serializes the final state and mutates nothing. -/
inductive Reaches (fetch : String → FetchOutcome) (max_pages : Option Nat) :
    CrawlState → CrawlState → Prop
  | refl (a : CrawlState) : Reaches fetch max_pages a a
  | step (a b : CrawlState) : Reaches fetch max_pages a b →
      crawlGuard max_pages b = true →
      Reaches fetch max_pages a (crawlStep fetch b)

/-- Modelled from the spec, section 4.1: `normalize(url)` as literally
worded there and in the claim — "parse URL, drop query string and
fragment, strip ONE trailing slash". -/
def stripOneSlash (l : List Char) : List Char :=
  match l.reverse with
  | '/' :: t => t.reverse
  | _ => l

def normalizeSpecLiteral (url : String) : String :=
  let p := urlparseCore url.data
  String.mk (stripOneSlash (urlunparseCore { p with query := [], fragment := [] }))

/-- The normalization steps with the wording amended to what the code
does: ALL trailing slashes are stripped from the re-serialized URL. -/
def normalizeSpecAmended (url : String) : String :=
  let p := urlparseCore url.data
  String.mk (rstripSlash (urlunparseCore { p with query := [], fragment := [] }))

/-- Modelled from the spec, section 4.1: `toPathKey` as literally worded
there and in the claim — "extract path component; if empty, key = home;
else percent-decode, replace the reserved character class with `-`,
lower-case", with no slash-stripping step. -/
def toPathKeySpecLiteral (url : String) : String :=
  let path := (urlparseCore url.data).path
  if path == ([] : List Char) then "home"
  else String.mk (lowerL ((unquoteCore path).map sanitizeChar))

/-- The path-key steps with the wording amended to what the code does:
the path is first stripped of leading and trailing slashes, the `home`
test applies to the stripped path, and decoding/replacement/lowering
apply to the stripped path. -/
def toPathKeySpecAmended (url : String) : String :=
  let path := stripSlash (urlparseCore url.data).path
  if path == ([] : List Char) then "home"
  else String.mk (lowerL ((unquoteCore path).map sanitizeChar))

/-- Concrete inputs used by the witnesses below. -/
def exDoc : Doc :=
  { divProductClass := false, divWoocommerceProductGallery := false,
    ulProductsClass := false, divWoocommerceProductsHeader := false,
    title := some "T", metaDescription := none, metaKeywords := none,
    h1Headings := [], h2Headings := [], h3Headings := [],
    priceText := none, skuText := none, stockText := none,
    postedInTexts := [], taggedAsTexts := [], ldJsonBlocks := [],
    anchors := [] }

def exState : ScraperState := initState "https://ex.com/"

def exFetchFail : String → FetchOutcome := fun _ => FetchOutcome.failure

/-- The product indicator of `get_page_type`: `'product' in url_path` or
one of the two product document markers. -/
def productIndicator (url : String) (soup : Doc) : Bool :=
  hasSubstr "product".data (lowerL (urlparseCore url.data).path) ||
  soup.divProductClass || soup.divWoocommerceProductGallery

/-- The category indicator of `get_page_type`: `'category'`/`'shop'` in
the path or one of the two category document markers. -/
def categoryIndicator (url : String) (soup : Doc) : Bool :=
  hasSubstr "category".data (lowerL (urlparseCore url.data).path) ||
  hasSubstr "shop".data (lowerL (urlparseCore url.data).path) ||
  soup.ulProductsClass || soup.divWoocommerceProductsHeader

/-- A document carrying a product marker and a category marker at once. -/
def exDocBoth : Doc :=
  { exDoc with divProductClass := true, divWoocommerceProductsHeader := true }

/-- The key set of the hierarchy dictionary, as a finite set. -/
def hkeysF (s : ScraperState) : Finset String := (hkeys s.page_hierarchy).toFinset

/-- The type-partition property of claim C1: the three page-type sets
cover exactly the keys of `page_hierarchy` and are pairwise disjoint. -/
def TypePartition (s : ScraperState) : Prop :=
  s.product_pages ∪ s.category_pages ∪ s.content_pages = hkeysF s ∧
  Disjoint s.product_pages s.category_pages ∧
  Disjoint s.product_pages s.content_pages ∧
  Disjoint s.category_pages s.content_pages

/-- Claim C4's edge condition, as a state invariant: every child URL
recorded anywhere in the hierarchy is a visited URL. -/
def ChildrenVisited (s : ScraperState) : Prop :=
  ∀ e ∈ s.page_hierarchy, ∀ c ∈ e.2.children, c ∈ s.visited_urls

/-- The combined crawl-state invariant. -/
def CrawlInv (s : ScraperState) : Prop :=
  TypePartition s ∧ hkeysF s ⊆ s.visited_urls ∧ ChildrenVisited s

/-- Generic preservation of a predicate along `List.foldl`. -/
theorem foldl_preserve {α β : Type} (P : α → Prop) (f : α → β → α)
    (hstep : ∀ a b, P a → P (f a b)) :
    ∀ (l : List β) (s : α), P s → P (l.foldl f s) := by
  intro l
  induction l with
  | nil => intro s hs; simpa using hs
  | cons x xs ih => intro s hs; exact ih (f s x) (hstep s x hs)

/-- C10: calling `scrape_page` on an already-visited or off-domain URL
returns `([], none)` and leaves every field of the crawl state exactly as
it was; in particular an off-domain URL is never inserted into
`visited_urls`. -/
theorem scrape_page_frame (fetch : String → FetchOutcome) (s : ScraperState)
    (url : String)
    (h : clean_url url ∈ s.visited_urls ∨
         is_valid_url s.base_url (clean_url url) = false) :
    scrape_page fetch s url = (([], none), s) := by
  unfold scrape_page
  rcases h with h | h
  · simp [h]
  · simp [h]

/-- Witness for C10 at a concrete off-domain input. -/
theorem scrape_page_frame_witness :
    is_valid_url exState.base_url (clean_url "https://other.com/x") = false ∧
    scrape_page exFetchFail exState "https://other.com/x" = (([], none), exState) :=
  ⟨by decide, scrape_page_frame exFetchFail exState "https://other.com/x"
    (Or.inr (by decide))⟩

/-- C5: on a fresh same-domain URL whose fetch raises or returns a
non-200 status, `scrape_page` yields no links and no record, the URL is
nevertheless in the visited set afterwards, and any later call on a state
that has the URL in its visited set is rejected without touching the
state. -/
theorem scrape_page_failure_scoped (fetch : String → FetchOutcome)
    (s : ScraperState) (url : String)
    (hnv : clean_url url ∉ s.visited_urls)
    (hval : is_valid_url s.base_url (clean_url url) = true)
    (hfail : fetch url = FetchOutcome.failure ∨
             ∃ st doc, fetch url = FetchOutcome.success st doc ∧ st ≠ 200) :
    (scrape_page fetch s url).1 = ([], none) ∧
    clean_url url ∈ (scrape_page fetch s url).2.visited_urls ∧
    ∀ t : ScraperState, clean_url url ∈ t.visited_urls →
      scrape_page fetch t url = (([], none), t) := by
  refine ⟨?_, ?_, ?_⟩
  · unfold scrape_page
    rcases hfail with hf | ⟨st, doc, hf, hst⟩
    · simp [hnv, hval, hf]
    · simp [hnv, hval, hf, hst]
  · unfold scrape_page
    rcases hfail with hf | ⟨st, doc, hf, hst⟩
    · simp [hnv, hval, hf]
    · simp [hnv, hval, hf, hst]
  · intro t ht
    unfold scrape_page
    simp [ht]

/-- Witness for C5: a concrete fresh on-domain URL whose fetch fails. -/
theorem scrape_page_failure_scoped_witness :
    clean_url "https://ex.com/p" ∉ exState.visited_urls ∧
    is_valid_url exState.base_url (clean_url "https://ex.com/p") = true ∧
    (scrape_page exFetchFail exState "https://ex.com/p").1 = ([], none) ∧
    clean_url "https://ex.com/p" ∈
      (scrape_page exFetchFail exState "https://ex.com/p").2.visited_urls :=
  ⟨by decide, by decide,
   (scrape_page_failure_scoped exFetchFail exState "https://ex.com/p"
      (by decide) (by decide) (Or.inl rfl)).1,
   (scrape_page_failure_scoped exFetchFail exState "https://ex.com/p"
      (by decide) (by decide) (Or.inl rfl)).2.1⟩

/-- C8: `get_page_type` always answers one of the three types, and when
a product indicator and a category indicator hold simultaneously the
answer is `product` — product beats category beats content. -/
theorem get_page_type_priority (url : String) (soup : Doc) :
    (get_page_type url soup = "product" ∨ get_page_type url soup = "category" ∨
     get_page_type url soup = "content") ∧
    (productIndicator url soup = true → categoryIndicator url soup = true →
      get_page_type url soup = "product") := by
  constructor
  · unfold get_page_type
    dsimp only
    split
    · exact Or.inl rfl
    · split
      · exact Or.inr (Or.inl rfl)
      · exact Or.inr (Or.inr rfl)
  · intro hp _
    unfold get_page_type
    dsimp only
    unfold productIndicator at hp
    simp only [Bool.or_eq_true] at hp
    rcases hp with hp | hp
    · rcases hp with hp | hp
      · simp [hp]
      · simp [hp]
    · simp [hp]

/-- Witness for C8 on a URL/document where both indicators fire. -/
theorem get_page_type_priority_witness :
    productIndicator "https://ex.com/shop" exDocBoth = true ∧
    categoryIndicator "https://ex.com/shop" exDocBoth = true ∧
    get_page_type "https://ex.com/shop" exDocBoth = "product" :=
  ⟨by decide, by decide,
   (get_page_type_priority "https://ex.com/shop" exDocBoth).2 (by decide) (by decide)⟩

/-- Counterexample to C6 as stated: on `http://a.com/x//` the code
(`rstrip('/')`, all trailing slashes) and the spec wording (one trailing
slash) disagree. -/
theorem clean_url_strip_one_counterexample :
    clean_url "http://a.com/x//" ≠ normalizeSpecLiteral "http://a.com/x//" := by
  decide

/-- C6 (amended): `clean_url u` equals `u` parsed, with query string and
fragment dropped, and with ALL trailing slashes stripped from the
re-serialized result. -/
theorem clean_url_steps_amended (url : String) :
    clean_url url = normalizeSpecAmended url := rfl

/-- Counterexample to C7 as stated: the code strips the leading slash of
the path before sanitizing, the literal spec wording would replace it
with `-`. -/
theorem get_page_path_counterexample :
    get_page_path "https://ex.com/about" ≠
      toPathKeySpecLiteral "https://ex.com/about" := by
  decide

/-- C7 (amended): `get_page_path` equals the spec's path-key pipeline
with the path first stripped of leading and trailing slashes (Python
`path.strip('/')`), the `home` test applied to the stripped path, then
percent-decoding, reserved-character replacement and lower-casing. -/
theorem get_page_path_steps_amended (url : String) :
    get_page_path url = toPathKeySpecAmended url := by
  unfold get_page_path getPagePathCore toPathKeySpecAmended
  dsimp only
  split
  · rfl
  · rfl

theorem hkeysF_hset (h : List (String × HNode)) (k : String) (v : HNode) :
    (hkeys (hset h k v)).toFinset = insert k (hkeys h).toFinset := by
  unfold hset hkeys
  by_cases hany : h.any (fun e => e.fst == k) = true
  · rw [if_pos hany]
    rw [List.map_map]
    have hmap : h.map (Prod.fst ∘ fun e => if e.fst == k then (k, v) else e) =
        h.map Prod.fst := by
      apply List.map_congr_left
      intro e _
      by_cases hk : e.fst = k
      · simp [hk]
      · simp [hk]
    rw [hmap]
    have hk : k ∈ (h.map Prod.fst).toFinset := by
      rcases List.any_eq_true.mp hany with ⟨e, he, hek⟩
      simp only [List.mem_toFinset, List.mem_map]
      exact ⟨e, he, beq_iff_eq.mp hek⟩
    exact (Finset.insert_eq_self.mpr hk).symm
  · rw [if_neg hany]
    rw [List.map_append, List.toFinset_append]
    simp [Finset.union_comm, Finset.insert_eq]

theorem hkeys_haddChild (h : List (String × HNode)) (k c : String) :
    hkeys (haddChild h k c) = hkeys h := by
  unfold haddChild hkeys
  rw [List.map_map]
  apply List.map_congr_left
  intro e _
  by_cases hk : e.fst = k
  · simp [hk]
  · simp [hk]

theorem mem_hset (h : List (String × HNode)) (k : String) (v : HNode)
    (e : String × HNode) (he : e ∈ hset h k v) : e = (k, v) ∨ e ∈ h := by
  unfold hset at he
  by_cases hany : h.any (fun x => x.fst == k) = true
  · rw [if_pos hany] at he
    rcases List.mem_map.mp he with ⟨x, hx, hxe⟩
    by_cases hk : x.fst = k
    · left; rw [← hxe]; simp [hk]
    · right; rw [← hxe]; simpa [hk] using hx
  · rw [if_neg hany] at he
    rcases List.mem_append.mp he with hx | hx
    · right; exact hx
    · left; simpa using hx

theorem mem_haddChild (h : List (String × HNode)) (k c : String)
    (e : String × HNode) (he : e ∈ haddChild h k c) :
    ∃ e' ∈ h, e.1 = e'.1 ∧
      (e.2.children = e'.2.children ∨ e.2.children = e'.2.children ++ [c]) := by
  unfold haddChild at he
  rcases List.mem_map.mp he with ⟨x, hx, hxe⟩
  by_cases hk : x.fst = k
  · refine ⟨x, hx, ?_, ?_⟩
    · rw [← hxe]; simp [hk]
    · right; rw [← hxe]; simp [hk]
  · refine ⟨x, hx, ?_, ?_⟩
    · rw [← hxe]; simp [hk]
    · left; rw [← hxe]; simp [hk]

theorem CrawlInv_haddChild (st : ScraperState) (cc lc : String)
    (hlc : lc ∈ hkeysF st) (h : CrawlInv st) :
    CrawlInv { st with page_hierarchy := haddChild st.page_hierarchy cc lc } := by
  obtain ⟨⟨hu, hd1, hd2, hd3⟩, hsub, hcv⟩ := h
  have hkeq : hkeysF { st with page_hierarchy := haddChild st.page_hierarchy cc lc }
      = hkeysF st := by
    unfold hkeysF
    rw [hkeys_haddChild]
  refine ⟨⟨?_, hd1, hd2, hd3⟩, ?_, ?_⟩
  · rw [hkeq]; exact hu
  · rw [hkeq]; exact hsub
  · intro e he c hc
    rcases mem_haddChild st.page_hierarchy cc lc e he with ⟨e', he', _, hch | hch⟩
    · exact hcv e' he' c (hch ▸ hc)
    · rw [hch] at hc
      rcases List.mem_append.mp hc with hc | hc
      · exact hcv e' he' c hc
      · have : c = lc := by simpa using hc
        subst this
        exact hsub hlc

theorem CrawlInv_foldl_links (st : ScraperState) (cc : String)
    (links : List LinkData) (h : CrawlInv st) :
    CrawlInv (links.foldl (fun st ld =>
      let link_clean := clean_url ld.url
      if (hkeys st.page_hierarchy).contains link_clean then
        { st with page_hierarchy :=
            haddChild st.page_hierarchy cc link_clean }
      else st) st) := by
  apply foldl_preserve CrawlInv _ _ links st h
  intro a b ha
  dsimp only
  by_cases hc : (hkeys a.page_hierarchy).contains (clean_url b.url) = true
  · rw [if_pos hc]
    apply CrawlInv_haddChild a cc (clean_url b.url) _ ha
    unfold hkeysF
    rw [List.mem_toFinset]
    exact List.mem_of_elem_eq_true hc
  · rw [if_neg hc]
    exact ha

theorem CrawlInv_insert_visited (s : ScraperState) (cu : String)
    (h : CrawlInv s) :
    CrawlInv { s with visited_urls := insert cu s.visited_urls } := by
  obtain ⟨hp, hsub, hcv⟩ := h
  refine ⟨hp, ?_, ?_⟩
  · exact hsub.trans (Finset.subset_insert cu s.visited_urls)
  · intro e he c hc
    exact Finset.mem_insert_of_mem (hcv e he c hc)

theorem CrawlInv_success_core (s : ScraperState) (cu : String) (nd : HNode)
    (hnd : nd.children = []) (hcu : cu ∉ s.visited_urls) (h : CrawlInv s)
    (P C T : Finset String)
    (hsets : (P = insert cu s.product_pages ∧ C = s.category_pages ∧
              T = s.content_pages) ∨
             (P = s.product_pages ∧ C = insert cu s.category_pages ∧
              T = s.content_pages) ∨
             (P = s.product_pages ∧ C = s.category_pages ∧
              T = insert cu s.content_pages)) :
    CrawlInv { base_url := s.base_url,
               visited_urls := insert cu s.visited_urls,
               page_hierarchy := hset s.page_hierarchy cu nd,
               product_pages := P, category_pages := C, content_pages := T } := by
  obtain ⟨⟨hu, hd1, hd2, hd3⟩, hsub, hcv⟩ := h
  have hknew : (hkeys (hset s.page_hierarchy cu nd)).toFinset =
      insert cu (hkeys s.page_hierarchy).toFinset := hkeysF_hset _ _ _
  have hcuk : cu ∉ hkeysF s := fun hk => hcu (hsub hk)
  have hcuP : cu ∉ s.product_pages := fun hx => hcuk (by
    rw [← hu]; exact Finset.mem_union_left _ (Finset.mem_union_left _ hx))
  have hcuC : cu ∉ s.category_pages := fun hx => hcuk (by
    rw [← hu]; exact Finset.mem_union_left _ (Finset.mem_union_right _ hx))
  have hcuT : cu ∉ s.content_pages := fun hx => hcuk (by
    rw [← hu]; exact Finset.mem_union_right _ hx)
  have hchild : ∀ e ∈ hset s.page_hierarchy cu nd, ∀ c ∈ e.2.children,
      c ∈ insert cu s.visited_urls := by
    intro e he c hc
    rcases mem_hset s.page_hierarchy cu nd e he with he' | he'
    · rw [he'] at hc
      simp [hnd] at hc
    · exact Finset.mem_insert_of_mem (hcv e he' c hc)
  have hsub' : (hkeys (hset s.page_hierarchy cu nd)).toFinset ⊆
      insert cu s.visited_urls := by
    rw [hknew]
    exact Finset.insert_subset_insert _ hsub
  rcases hsets with ⟨hP, hC, hT⟩ | ⟨hP, hC, hT⟩ | ⟨hP, hC, hT⟩ <;>
    subst hP <;> subst hC <;> subst hT
  · refine ⟨⟨?_, ?_, ?_, ?_⟩, hsub', hchild⟩
    · show insert cu s.product_pages ∪ s.category_pages ∪ s.content_pages =
        hkeysF _
      unfold hkeysF
      dsimp only
      rw [hknew, Finset.insert_union, Finset.insert_union, hu]
      rfl
    · exact Finset.disjoint_insert_left.mpr ⟨hcuC, hd1⟩
    · exact Finset.disjoint_insert_left.mpr ⟨hcuT, hd2⟩
    · exact hd3
  · refine ⟨⟨?_, ?_, ?_, ?_⟩, hsub', hchild⟩
    · show s.product_pages ∪ insert cu s.category_pages ∪ s.content_pages =
        hkeysF _
      unfold hkeysF
      dsimp only
      rw [hknew, Finset.union_insert, Finset.insert_union, hu]
      rfl
    · exact Finset.disjoint_insert_right.mpr ⟨hcuP, hd1⟩
    · exact hd2
    · exact Finset.disjoint_insert_left.mpr ⟨hcuT, hd3⟩
  · refine ⟨⟨?_, ?_, ?_, ?_⟩, hsub', hchild⟩
    · show s.product_pages ∪ s.category_pages ∪ insert cu s.content_pages =
        hkeysF _
      unfold hkeysF
      dsimp only
      rw [hknew, Finset.union_insert, hu]
      rfl
    · exact hd1
    · exact Finset.disjoint_insert_right.mpr ⟨hcuP, hd2⟩
    · exact Finset.disjoint_insert_right.mpr ⟨hcuC, hd3⟩

theorem scrape_page_inv (fetch : String → FetchOutcome) (s : ScraperState)
    (url : String) (h : CrawlInv s) :
    CrawlInv (scrape_page fetch s url).2 := by
  unfold scrape_page
  dsimp only
  split
  · exact h
  · rename_i hg
    have hcu : clean_url url ∉ s.visited_urls := by
      intro hmem
      exact hg (by simp [hmem])
    split
    · exact CrawlInv_insert_visited s _ h
    · split
      · exact CrawlInv_insert_visited s _ h
      · dsimp only
        split
        · exact CrawlInv_success_core s (clean_url url) _ rfl hcu h _ _ _
            (Or.inl ⟨rfl, rfl, rfl⟩)
        · split
          · exact CrawlInv_success_core s (clean_url url) _ rfl hcu h _ _ _
              (Or.inr (Or.inl ⟨rfl, rfl, rfl⟩))
          · exact CrawlInv_success_core s (clean_url url) _ rfl hcu h _ _ _
              (Or.inr (Or.inr ⟨rfl, rfl, rfl⟩))

theorem crawlStep_inv (fetch : String → FetchOutcome) (c : CrawlState)
    (h : CrawlInv c.scraper) : CrawlInv (crawlStep fetch c).scraper := by
  rcases hv : c.to_visit with _ | ⟨u, rest⟩
  · unfold crawlStep
    rw [hv]
    exact h
  · unfold crawlStep
    rw [hv]
    dsimp only
    rcases hsp : scrape_page fetch c.scraper u with ⟨⟨nl, pd⟩, s1⟩
    have h1 : CrawlInv s1 := by
      have h2 := scrape_page_inv fetch c.scraper u h
      rw [hsp] at h2
      exact h2
    dsimp only
    cases pd with
    | none => exact h1
    | some pd => exact CrawlInv_foldl_links s1 (clean_url u) pd.links h1

theorem CrawlInv_init (base_url : String) : CrawlInv (initState base_url) := by
  refine ⟨⟨?_, ?_, ?_, ?_⟩, ?_, ?_⟩ <;> simp [initState, hkeysF, hkeys, ChildrenVisited]

theorem Reaches_inv (fetch : String → FetchOutcome) (mp : Option Nat)
    (a c : CrawlState) (hr : Reaches fetch mp a c) (h : CrawlInv a.scraper) :
    CrawlInv c.scraper := by
  induction hr with
  | refl => exact h
  | step b _ _ ih => exact crawlStep_inv fetch b ih

/-- C1: in every state a crawl started by `scrape_website` can reach —
hence also in the final state that `save_site_hierarchy` serializes —
the three page-type sets cover exactly the successfully scraped URLs
(the keys of `page_hierarchy`) and are pairwise disjoint. -/
theorem crawl_type_partition (fetch : String → FetchOutcome)
    (max_pages : Option Nat) (base_url : String) (c : CrawlState)
    (h : Reaches fetch max_pages (initCrawl (initState base_url)) c) :
    TypePartition c.scraper :=
  (Reaches_inv fetch max_pages _ c h (CrawlInv_init base_url)).1

/-- Witness for C1 at the initial state of a concrete crawl. -/
theorem crawl_type_partition_witness :
    TypePartition (initCrawl (initState "https://ex.com/")).scraper :=
  crawl_type_partition exFetchFail none "https://ex.com/" _
    (Reaches.refl _)

/-- C9: in every reachable crawl state, every key of `page_hierarchy` is
in `visited_urls` — a URL is marked visited before its node exists. -/
theorem crawl_hierarchy_keys_visited (fetch : String → FetchOutcome)
    (max_pages : Option Nat) (base_url : String) (c : CrawlState)
    (h : Reaches fetch max_pages (initCrawl (initState base_url)) c) :
    hkeysF c.scraper ⊆ c.scraper.visited_urls :=
  (Reaches_inv fetch max_pages _ c h (CrawlInv_init base_url)).2.1

/-- Witness for C9 at the initial state of a concrete crawl. -/
theorem crawl_hierarchy_keys_visited_witness :
    hkeysF (initCrawl (initState "https://ex.com/")).scraper ⊆
      (initCrawl (initState "https://ex.com/")).scraper.visited_urls :=
  crawl_hierarchy_keys_visited exFetchFail none "https://ex.com/" _
    (Reaches.refl _)

/-- C4: in every reachable crawl state, every child URL recorded in any
hierarchy node is already in `visited_urls`; since `visited_urls` only
grows and `crawlStep` checks hierarchy membership (a subset of the
visited set) before appending, no edge is ever created toward an
unvisited target. -/
theorem crawl_children_visited (fetch : String → FetchOutcome)
    (max_pages : Option Nat) (base_url : String) (c : CrawlState)
    (h : Reaches fetch max_pages (initCrawl (initState base_url)) c) :
    ChildrenVisited c.scraper :=
  (Reaches_inv fetch max_pages _ c h (CrawlInv_init base_url)).2.2

/-- Witness for C4 at the initial state of a concrete crawl. -/
theorem crawl_children_visited_witness :
    ChildrenVisited (initCrawl (initState "https://ex.com/")).scraper :=
  crawl_children_visited exFetchFail none "https://ex.com/" _
    (Reaches.refl _)

theorem crawlStep_pages (fetch : String → FetchOutcome) (c : CrawlState)
    (hne : c.to_visit ≠ []) :
    (crawlStep fetch c).pages_scraped = c.pages_scraped + 1 := by
  rcases hv : c.to_visit with _ | ⟨u, rest⟩
  · exact absurd hv hne
  · unfold crawlStep
    rw [hv]

theorem crawlGuard_bounds (mp : Option Nat) (c : CrawlState)
    (hg : crawlGuard mp c = true) :
    c.to_visit ≠ [] ∧ ∀ n, mp = some n → c.pages_scraped < n := by
  unfold crawlGuard at hg
  rcases Bool.and_eq_true_iff.mp hg with ⟨h1, h2⟩
  constructor
  · intro hv
    rw [hv] at h1
    simp at h1
  · intro n hn
    rw [hn] at h2
    simpa using h2

/-- C2: with a budget of `N` (any `N`, including `0`) every state the
crawl loop reaches satisfies `pages_scraped ≤ N`; each loop iteration
taken under the guard dequeues exactly one URL and increments
`pages_scraped` by exactly one, so at most `N` iterations run; and with
no budget the loop guard holds exactly while the frontier is nonempty. -/
theorem crawl_budget_respect (fetch : String → FetchOutcome) (N : Nat)
    (base_url : String) (c : CrawlState)
    (h : Reaches fetch (some N) (initCrawl (initState base_url)) c) :
    c.pages_scraped ≤ N ∧
    (∀ (mp : Option Nat) (c' : CrawlState), crawlGuard mp c' = true →
      (crawlStep fetch c').pages_scraped = c'.pages_scraped + 1) ∧
    (∀ c' : CrawlState, crawlGuard none c' = true ↔ c'.to_visit ≠ []) := by
  refine ⟨?_, ?_, ?_⟩
  · induction h with
    | refl => exact Nat.zero_le N
    | step b _ hg _ =>
      have hne := (crawlGuard_bounds _ b hg).1
      have hlt := (crawlGuard_bounds _ b hg).2 N rfl
      rw [crawlStep_pages fetch b hne]
      exact hlt
  · intro mp c' hg
    exact crawlStep_pages fetch c' (crawlGuard_bounds mp c' hg).1
  · intro c'
    constructor
    · intro hg
      exact (crawlGuard_bounds none c' hg).1
    · intro hne
      unfold crawlGuard
      simp [hne]

/-- Witness for C2 on a concrete zero-budget crawl. -/
theorem crawl_budget_respect_witness :
    (initCrawl (initState "https://ex.com/")).pages_scraped ≤ 0 :=
  (crawl_budget_respect exFetchFail 0 "https://ex.com/" _ (Reaches.refl _)).1

theorem letter_not_slash (c : Char) (h : isLetter c = true) : c ≠ '/' := by
  have hall : asciiLetters.all (fun c => c != '/') = true := by decide
  simpa using List.all_eq_true.mp hall c (List.mem_of_elem_eq_true h)

theorem rstripSlash_nil : rstripSlash [] = [] := rfl

theorem rstripSlash_cons (c : Char) (t : List Char) :
    rstripSlash (c :: t) =
      match rstripSlash t with
      | [] => if c == '/' then [] else [c]
      | d :: ds => c :: d :: ds := rfl

theorem rstripSlash_append (a b : List Char) :
    rstripSlash (a ++ b) =
      if rstripSlash b = [] then rstripSlash a else a ++ rstripSlash b := by
  induction a with
  | nil =>
    by_cases hb : rstripSlash b = []
    · rw [List.nil_append, if_pos hb, rstripSlash_nil, hb]
    · rw [List.nil_append, if_neg hb, List.nil_append]
  | cons c t ih =>
    rw [List.cons_append, rstripSlash_cons, ih]
    by_cases hb : rstripSlash b = []
    · rw [if_pos hb, if_pos hb, ← rstripSlash_cons]
    · rw [if_neg hb, if_neg hb]
      rcases hr : rstripSlash b with _ | ⟨d, ds⟩
      · exact absurd hr hb
      · rcases ht : t ++ d :: ds with _ | ⟨e, es⟩
        · exact absurd ht (by simp)
        · rw [List.cons_append, ht]

theorem rstripSlash_eq_nil_iff (l : List Char) :
    rstripSlash l = [] ↔ ∀ c ∈ l, c = '/' := by
  induction l with
  | nil => simp [rstripSlash_nil]
  | cons c t ih =>
    rw [rstripSlash_cons]
    rcases hr : rstripSlash t with _ | ⟨d, ds⟩
    · rw [hr] at ih
      by_cases hc : c == '/'
      · dsimp only
        rw [if_pos hc]
        simp only [List.mem_cons, true_iff]
        intro x hx
        rcases hx with hx | hx
        · rw [hx]; exact beq_iff_eq.mp hc
        · exact ih.mp rfl x hx
      · dsimp only
        rw [if_neg hc]
        constructor
        · intro h; exact absurd h (by simp)
        · intro h
          exact absurd (h c (List.mem_cons_self c t)) (by simpa using hc)
    · dsimp only
      constructor
      · intro h; exact absurd h (by simp)
      · intro h
        have h2 : rstripSlash t = [] :=
          ih.mpr (fun x hx => h x (List.mem_cons_of_mem c hx))
        rw [hr] at h2
        exact absurd h2 (by simp)

theorem rstripSlash_is_take (l : List Char) :
    ∃ n, rstripSlash l = l.take n := by
  induction l with
  | nil => exact ⟨0, rfl⟩
  | cons c t ih =>
    rcases ih with ⟨n, hn⟩
    rw [rstripSlash_cons]
    rcases hr : rstripSlash t with _ | ⟨d, ds⟩
    · by_cases hc : c == '/'
      · exact ⟨0, by dsimp only; rw [if_pos hc]; rfl⟩
      · exact ⟨1, by dsimp only; rw [if_neg hc]; rfl⟩
    · rw [hr] at hn
      refine ⟨n + 1, ?_⟩
      dsimp only
      rw [List.take_succ_cons, ← hn]

theorem rstripSlash_getLast_ne (l : List Char) :
    (rstripSlash l).getLast? ≠ some '/' := by
  induction l with
  | nil => simp [rstripSlash_nil]
  | cons c t ih =>
    rw [rstripSlash_cons]
    rcases hr : rstripSlash t with _ | ⟨d, ds⟩
    · by_cases hc : c == '/'
      · dsimp only
        rw [if_pos hc]
        simp
      · dsimp only
        rw [if_neg hc]
        simpa using hc
    · rw [hr] at ih
      dsimp only
      rw [List.getLast?_cons_cons]
      exact ih

theorem dropWhile_head_false {q : Char → Bool} {l : List Char} {x : Char}
    {xs : List Char} (h : l.dropWhile q = x :: xs) : q x = false := by
  induction l with
  | nil => simp at h
  | cons c t ih =>
    rw [List.dropWhile_cons] at h
    by_cases hc : q c = true
    · rw [if_pos hc] at h
      exact ih h
    · rw [if_neg hc] at h
      have hx : c = x := (List.cons.injEq c t x xs |>.mp h).1
      rw [← hx]
      simpa using hc

theorem splitScheme_fail_ret (l : List Char) (s r : List Char)
    (h : splitScheme l = (s, r)) (hs : s = []) : r = l := by
  subst hs
  unfold splitScheme at h
  split at h
  · exact ((Prod.mk.injEq _ _ _ _).mp h).2.symm
  · split at h
    · exact ((Prod.mk.injEq _ _ _ _).mp h).2.symm
    · rename_i c0 tail heqt
      split at h
      · have h1 := ((Prod.mk.injEq _ _ _ _).mp h).1
        rw [heqt] at h1
        simp at h1
      · exact ((Prod.mk.injEq _ _ _ _).mp h).2.symm

theorem splitNetloc_rest (l n r : List Char) (h : splitNetloc l = (n, r))
    (hne : n ≠ []) :
    r = [] ∨ ∃ d t', r = d :: t' ∧ netlocDelim d = true := by
  unfold splitNetloc at h
  split at h
  · rcases hr : r with _ | ⟨d, t'⟩
    · exact Or.inl rfl
    · right
      refine ⟨d, t', rfl, ?_⟩
      have h2 := ((Prod.mk.injEq _ _ _ _).mp h).2
      rw [hr] at h2
      have := dropWhile_head_false h2
      simpa using this
  · exact absurd ((Prod.mk.injEq _ _ _ _).mp h).1.symm hne

theorem netlocDelim_cases (d : Char) (h : netlocDelim d = true) :
    d = '/' ∨ d = '?' ∨ d = '#' := by
  unfold netlocDelim at h
  rcases Bool.or_eq_true_iff.mp h with h1 | h1
  · rcases Bool.or_eq_true_iff.mp h1 with h2 | h2
    · exact Or.inl (beq_iff_eq.mp h2)
    · exact Or.inr (Or.inl (beq_iff_eq.mp h2))
  · exact Or.inr (Or.inr (beq_iff_eq.mp h1))

theorem urlsplitCore_spec (l : List Char) :
    ∃ r1 r2 r3,
      splitScheme (preprocessUrl l) = ((urlsplitCore l).scheme, r1) ∧
      splitNetloc r1 = ((urlsplitCore l).netloc, r2) ∧
      splitFragment r2 = (r3, (urlsplitCore l).fragment) ∧
      splitQuery r3 = ((urlsplitCore l).path, (urlsplitCore l).query) := by
  unfold urlsplitCore
  rcases hs : splitScheme (preprocessUrl l) with ⟨s, r1⟩
  dsimp only
  rcases hn : splitNetloc r1 with ⟨n, r2⟩
  dsimp only
  rcases hf : splitFragment r2 with ⟨r3, f⟩
  dsimp only
  rcases hq : splitQuery r3 with ⟨p, q⟩
  exact ⟨r1, r2, r3, rfl, hn, hf, hq⟩

theorem urlsplit_shape_fact (l : List Char)
    (hne : (urlsplitCore l).netloc ≠ []) :
    (urlsplitCore l).path = [] ∨ ∃ t, (urlsplitCore l).path = '/' :: t := by
  rcases urlsplitCore_spec l with ⟨r1, r2, r3, _, hn, hf, hq⟩
  have hr3 : r3 = r2.takeWhile (fun c => c != '#') :=
    (((Prod.mk.injEq _ _ _ _).mp hf).1).symm
  have hp : (urlsplitCore l).path = r3.takeWhile (fun c => c != '?') :=
    (((Prod.mk.injEq _ _ _ _).mp hq).1).symm
  rcases splitNetloc_rest r1 _ r2 hn hne with hr2 | ⟨d, t', hr2, hd⟩
  · left
    rw [hp, hr3, hr2]
    rfl
  · rcases netlocDelim_cases d hd with hd' | hd' | hd'
    · right
      subst hd'
      rw [hp, hr3, hr2, List.takeWhile_cons, if_pos (by decide : (('/' : Char) != '#') = true),
        List.takeWhile_cons, if_pos (by decide : (('/' : Char) != '?') = true)]
      exact ⟨_, rfl⟩
    · left
      subst hd'
      rw [hp, hr3, hr2, List.takeWhile_cons]
      simp
    · left
      subst hd'
      rw [hp, hr3, hr2, List.takeWhile_cons]
      simp

theorem sw2_iff (l : List Char) :
    startsWithCh ['/', '/'] l = true ↔ ∃ t, l = '/' :: '/' :: t := by
  rcases l with _ | ⟨c, t⟩
  · simp [startsWithCh]
  · rcases t with _ | ⟨d, t2⟩
    · simp [startsWithCh]
    · unfold startsWithCh
      unfold startsWithCh
      constructor
      · intro h
        rcases Bool.and_eq_true_iff.mp h with ⟨h1, h2⟩
        rcases Bool.and_eq_true_iff.mp h2 with ⟨h3, _⟩
        exact ⟨t2, by rw [← (beq_iff_eq.mp h1), ← (beq_iff_eq.mp h3)]⟩
      · intro ⟨t', ht⟩
        rcases (List.cons.injEq _ _ _ _).mp ht with ⟨hc, ht2⟩
        rcases (List.cons.injEq _ _ _ _).mp ht2 with ⟨hd, _⟩
        rw [hc, hd]
        simp [startsWithCh]

theorem take_cons (l : List Char) (n : Nat) (c : Char) (t : List Char)
    (h : l.take n = c :: t) : ∃ t', l = c :: t' := by
  rcases l with _ | ⟨x, xs⟩
  · simp at h
  · rcases n with _ | n
    · simp at h
    · rw [List.take_succ_cons] at h
      exact ⟨xs, by rw [((List.cons.injEq _ _ _ _).mp h).1]⟩

theorem take_cons_cons (l : List Char) (n : Nat) (c1 c2 : Char) (t : List Char)
    (h : l.take n = c1 :: c2 :: t) : ∃ w, l = c1 :: c2 :: w := by
  rcases l with _ | ⟨x, xs⟩
  · simp at h
  · rcases n with _ | n
    · simp at h
    · rw [List.take_succ_cons] at h
      rcases (List.cons.injEq _ _ _ _).mp h with ⟨hx, hxs⟩
      rcases take_cons xs n c2 t hxs with ⟨t', ht'⟩
      exact ⟨t', by rw [hx, ht']⟩

theorem rstrip_head (l : List Char) (c : Char) (t : List Char)
    (h : rstripSlash l = c :: t) : ∃ t', l = c :: t' := by
  rcases rstripSlash_is_take l with ⟨n, hn⟩
  rw [hn] at h
  exact take_cons l n c t h

theorem rstrip_sw2_preserve (l : List Char)
    (h : startsWithCh ['/', '/'] l = true) (hne : rstripSlash l ≠ []) :
    startsWithCh ['/', '/'] (rstripSlash l) = true := by
  rcases (sw2_iff _).mp h with ⟨t, ht⟩
  rcases hr : rstripSlash l with _ | ⟨c1, t1⟩
  · exact absurd hr hne
  · rcases rstrip_head l c1 t1 hr with ⟨t', ht'⟩
    have hc1 : c1 = '/' := by
      rw [ht] at ht'
      exact ((List.cons.injEq _ _ _ _).mp ht').1.symm
  
    rcases t1 with _ | ⟨c2, t2⟩
    · exfalso
      have := rstripSlash_getLast_ne l
      rw [hr, hc1] at this
      simp at this
    · have hc2 : c2 = '/' := by
        rcases rstripSlash_is_take l with ⟨n, hn⟩
        rw [hn] at hr
        rcases take_cons_cons l n c1 c2 t2 hr with ⟨w, hw⟩
        rw [ht] at hw
        exact ((List.cons.injEq _ _ _ _).mp
          ((List.cons.injEq _ _ _ _).mp hw).2).1.symm
      rw [hc1, hc2]
      apply (sw2_iff _).mpr
      exact ⟨t2, rfl⟩

theorem rstrip_ne_nil_of_head (l : List Char) (c : Char) (t : List Char)
    (hl : l = c :: t) (hc : c ≠ '/') : rstripSlash l ≠ [] := by
  intro h
  have := (rstripSlash_eq_nil_iff l).mp h c (by rw [hl]; exact List.mem_cons_self c t)
  exact hc this

theorem rstrip_append_fixed (a b : List Char) (hb : rstripSlash b = b)
    (hbne : b ≠ []) : rstripSlash (a ++ b) = a ++ b := by
  rw [rstripSlash_append, hb, if_neg hbne]

/-- The parameter-splitting behaviour of `urlparse`/`geturl` that the
no-split hypothesis of the amended idempotence claim excludes: with an
empty params field a trailing ';' is dropped on re-serialisation, so
`clean_url` moves `http://x.com/a;/` to `http://x.com/a;` and then to
`http://x.com/a`. -/
theorem clean_url_params_not_idem :
    clean_url "http://x.com/a;/" = "http://x.com/a;" ∧
    clean_url "http://x.com/a;" = "http://x.com/a" :=
  ⟨by decide, by decide⟩
